import Mathlib

set_option maxRecDepth 4000

/-!
Verification development for the query-language parser of django-restql
(django_restql/parser.py) and the dict conversion used by eager loading
(django_restql/mixins.py, EagerLoadingMixin.get_dict_parsed_restql_query).

The grammar layer (pypeg2 class-attribute grammars) is embedded as a fueled
recursive-descent parser with PEG semantics: ordered choice commits once an
alternative succeeds, sequences fail as a whole, repetition stops at the
first failing iteration and restores the position, whitespace is skipped
before every terminal except inside a contiguous group.
-/

/-- Decoded scalar argument values, as produced by
ArgumentWithoutQuotes.value and ArgumentWithQuotes.value in parser.py.
Python floats are represented symbolically by their numeric token, since no
claim depends on float arithmetic, only on which type is produced. -/
inductive Value where
  | bool : Bool → Value
  | null : Value
  | int : Int → Value
  | float : String → Value
  | str : String → Value
deriving DecidableEq

/-- Numeric value of a list of decimal digit characters. -/
def digitsToNat (l : List Char) : Nat :=
  l.foldl (fun acc c => acc * 10 + (c.toNat - '0'.toNat)) 0

/-- Python int(token), restricted to the token shapes reachable from the
argument grammar: an optional sign followed by one or more decimal digits
succeeds; anything else raises ValueError, modelled as none. -/
def pyIntParse (tok : String) : Option Int :=
  let split : Int × List Char :=
    match tok.data with
    | '-' :: rest => (-1, rest)
    | '+' :: rest => (1, rest)
    | cs => (1, cs)
  if split.2.isEmpty then none
  else if split.2.all Char.isDigit then some (split.1 * digitsToNat split.2)
  else none

/-- ArgumentWithoutQuotes.value: the fixed tokens true/false/null decode to
booleans/null, and any other token is fed to number(), which tries int()
and falls back to float(). -/
def decodeBare (tok : String) : Value :=
  if tok = "true" then .bool true
  else if tok = "false" then .bool false
  else if tok = "null" then .null
  else
    match pyIntParse tok with
    | some n => .int n
    | none => .float tok

/-- ArgumentWithQuotes.value: the Python slice removing the first and the
last character of the matched token, its two quote characters. -/
def decodeQuoted (tok : String) : Value :=
  .str (String.mk ((tok.data.drop 1).dropLast))

/-- Raw argument value as matched by the grammar: bare regex token or a
quoted token kept with its surrounding quotes. -/
inductive RArgVal where
  | bare : String → RArgVal
  | quoted : String → RArgVal
deriving DecidableEq

/-- Raw argument: a name, a colon and a value token. -/
structure RArg where
  name : String
  val : RArgVal
deriving DecidableEq

/-- Decoded value of a raw argument. -/
def argValue : RArgVal → Value
  | .bare tok => decodeBare tok
  | .quoted tok => decodeQuoted tok

mutual
/-- Raw parse tree of a Block: an arguments block and a block body. -/
inductive RawBlock where
  | mk : List RArg → RBody → RawBlock
/-- Raw parse tree of a BlockBody: the comma separated list of fields. -/
inductive RBody where
  | nil : RBody
  | cons : RField → RBody → RBody
/-- Raw parse tree of one body item: ParentField, IncludedField,
ExcludedField or AllFields, with the optional alias of the included part. -/
inductive RField where
  | parentF : Option String → String → RawBlock → RField
  | includedF : Option String → String → RField
  | excludedF : String → RField
  | allF : RField
end

mutual
/-- The Query namedtuple of parser.py: field_name, included_fields,
excluded_fields, aliases, arguments. Dicts are association lists with
Python dict update semantics. -/
inductive Query where
  | mk : Option String → Fields → List String → List (String × String) →
      List (String × Value) → Query
/-- The included_fields list: each entry is a flat field name string or a
nested Query. -/
inductive Fields where
  | nil : Fields
  | flat : String → Fields → Fields
  | nested : Query → Fields → Fields
end

def Query.field_name : Query → Option String
  | .mk fn _ _ _ _ => fn

def Query.included_fields : Query → Fields
  | .mk _ inc _ _ _ => inc

def Query.excluded_fields : Query → List String
  | .mk _ _ exc _ _ => exc

def Query.aliases : Query → List (String × String)
  | .mk _ _ _ al _ => al

def Query.arguments : Query → List (String × Value)
  | .mk _ _ _ _ ar => ar

/-- Python dict update with a one-entry dict: replace the value in place if
the key is present (keeping its position), otherwise append the new pair. -/
def updateAssoc {α : Type} : List (String × α) → String → α → List (String × α)
  | [], k, v => [(k, v)]
  | (k0, v0) :: rest, k, v =>
    if k0 = k then (k0, v) :: rest else (k0, v0) :: updateAssoc rest k v

/-- Append a flat field name at the end of an included_fields list. -/
def Fields.appendFlat : Fields → String → Fields
  | .nil, s => .flat s .nil
  | .flat x r, s => .flat x (r.appendFlat s)
  | .nested q r, s => .nested q (r.appendFlat s)

/-- Append a nested Query at the end of an included_fields list. -/
def Fields.appendNested : Fields → Query → Fields
  | .nil, q => .nested q .nil
  | .flat x r, q => .flat x (r.appendNested q)
  | .nested q0 r, q => .nested q0 (r.appendNested q)

/-- Membership of a flat field name in an included_fields list, as tested by
the Python expression: "*" not in query.included_fields. -/
def Fields.memFlat : Fields → String → Bool
  | .nil, _ => false
  | .flat x r, s => x == s || r.memFlat s
  | .nested _ r, s => r.memFlat s

/-- Number of occurrences of a flat field name in an included_fields list. -/
def Fields.countFlat : Fields → String → Nat
  | .nil, _ => 0
  | .flat x r, s => (if x == s then 1 else 0) + r.countFlat s
  | .nested _ r, s => r.countFlat s

/-- The post-pass of _transform_block: if excluded_fields is non-empty and
"*" is not already among included_fields, append "*". -/
def postPass (inc : Fields) (exc : List String) : Fields :=
  if !exc.isEmpty && !inc.memFlat "*" then inc.appendFlat "*" else inc

/-- The alias conflict set computed by _transform_block: the keys of the
aliases dict that also occur among its values. -/
def faultyOf (al : List (String × String)) : List String :=
  (al.map Prod.fst).filter (fun k => (al.map Prod.snd).contains k)

/-- The arguments dict accumulated from an argument block, in order, with
Python dict update semantics (a repeated name keeps the last value). -/
def buildArgs (args : List RArg) : List (String × Value) :=
  args.foldl (fun m a => updateAssoc m a.name (argValue a.val)) []

mutual
/-- QueryParser._transform_block: build a Query from a raw block; a
QueryFormatError is modelled as an error carrying the conflicting names. -/
def transformBlock (p : Option String) (b : RawBlock) :
    Except (List String) Query :=
  match b with
  | .mk args body =>
    match transformBody body Fields.nil [] [] with
    | .error l => .error l
    | .ok (inc, exc, al) =>
      let inc2 := postPass inc exc
      let faulty := faultyOf al
      if faulty.isEmpty then .ok (Query.mk p inc2 exc al (buildArgs args))
      else .error faulty

/-- The body loop of _transform_block: process the fields in source order,
recording aliases, appending included, excluded and nested entries. -/
def transformBody (body : RBody) (inc : Fields) (exc : List String)
    (al : List (String × String)) :
    Except (List String) (Fields × List String × List (String × String)) :=
  match body with
  | .nil => .ok (inc, exc, al)
  | .cons f rest =>
    match f with
    | .includedF alO nm =>
      let al2 := match alO with
        | some a => updateAssoc al nm a
        | none => al
      transformBody rest (inc.appendFlat nm) exc al2
    | .excludedF nm => transformBody rest inc (exc ++ [nm]) al
    | .allF => transformBody rest (inc.appendFlat "*") exc al
    | .parentF alO nm blk =>
      let al2 := match alO with
        | some a => updateAssoc al nm a
        | none => al
      match transformBlock (some nm) blk with
      | .error l => .error l
      | .ok child => transformBody rest (inc.appendNested child) exc al2
end

/-- Python whitespace characters, the default whitespace skipped by pypeg2
between terminals. -/
def isSpaceChar (c : Char) : Bool :=
  c = ' ' || c = '\t' || c = '\n' || c = '\r' || c = '\x0b' || c = '\x0c'

/-- Word characters of the Symbol regex used by name(), modelled on the
ASCII fragment of Python regex \w. -/
def isWordChar (c : Char) : Bool :=
  c.isAlphanum || c = '_'

/-- Skip whitespace, as pypeg2 does before every terminal outside a
contiguous group. -/
def skipWs (s : List Char) : List Char :=
  s.dropWhile isSpaceChar

/-- Match a single literal character terminal, skipping whitespace first. -/
def expectChar (c : Char) (s : List Char) : Option (List Char) :=
  match skipWs s with
  | c2 :: r => if c2 = c then some r else none
  | [] => none

/-- Match a Symbol (the name() terminal): a non-empty run of word
characters, with leading whitespace skipped. -/
def parseIdent (s : List Char) : Option (String × List Char) :=
  let s2 := skipWs s
  let tk := s2.takeWhile isWordChar
  if tk.isEmpty then none else some (String.mk tk, s2.dropWhile isWordChar)

/-- Match a Symbol with no whitespace skipping, for the contiguous
ExcludedField grammar. -/
def parseIdentContiguous (s : List Char) : Option (String × List Char) :=
  let tk := s.takeWhile isWordChar
  if tk.isEmpty then none else some (String.mk tk, s.dropWhile isWordChar)

/-- IncludedField grammar: optional(Alias), name(). The optional alias is
committed once its own grammar (name ':') succeeds, as in PEG. -/
def parseIncluded (s : List Char) : Option ((Option String × String) × List Char) :=
  match parseIdent s with
  | none => none
  | some (n1, r1) =>
    match expectChar ':' r1 with
    | some r2 =>
      match parseIdent r2 with
      | some (n2, r3) => some ((some n1, n2), r3)
      | none => none
    | none => some ((none, n1), r1)

/-- ExcludedField grammar: contiguous('-', name()). The '-' terminal skips
leading whitespace; the name must follow with no whitespace in between. -/
def parseExcluded (s : List Char) : Option (String × List Char) :=
  match expectChar '-' s with
  | none => none
  | some r1 => parseIdentContiguous r1

/-- The optional sign of the numeric regex alternative. -/
def matchSign (s : List Char) : List Char × List Char :=
  match s with
  | c :: r => if c = '-' || c = '+' then ([c], r) else ([], s)
  | [] => ([], s)

/-- Match the numeric alternative of the bare-value regex,
[-+]?[0-9]*\.?[0-9]+, at the current position with Python re greedy
semantics: the leading digit run is maximal, a dot is taken only when at
least one digit follows it, and with no dot the leading digits themselves
must be non-empty. -/
def matchNumberTok (s : List Char) : Option (List Char × List Char) :=
  let sign := matchSign s
  let d1 := sign.2.takeWhile Char.isDigit
  let r1 := sign.2.dropWhile Char.isDigit
  match r1 with
  | c :: r2 =>
    if c = '.' then
      let d2 := r2.takeWhile Char.isDigit
      if d2.isEmpty then
        if d1.isEmpty then none
        else some (sign.1 ++ d1, r1)
      else some (sign.1 ++ d1 ++ '.' :: d2, r2.dropWhile Char.isDigit)
    else if d1.isEmpty then none
    else some (sign.1 ++ d1, r1)
  | [] =>
    if d1.isEmpty then none else some (sign.1 ++ d1, r1)

/-- Ordered alternation of the bare-value regex: the literal alternatives
true, false, null are tried before the numeric one. -/
def matchBare (s : List Char) : Option (String × List Char) :=
  if s.take 4 = "true".data then some ("true", s.drop 4)
  else if s.take 5 = "false".data then some ("false", s.drop 5)
  else if s.take 4 = "null".data then some ("null", s.drop 4)
  else
    match matchNumberTok s with
    | some (tk, r) => some (String.mk tk, r)
    | none => none

/-- Scan the inside of a quoted token: content characters are any character
other than the quote and the backslash, or a backslash followed by any
character; the scan ends at the first unescaped closing quote. -/
def scanQuoted (q : Char) : List Char → Option (List Char × List Char)
  | [] => none
  | c :: r =>
    if c = q then some ([], r)
    else if c = '\\' then
      match r with
      | [] => none
      | e :: r2 =>
        match scanQuoted q r2 with
        | some (cs, rest) => some ('\\' :: e :: cs, rest)
        | none => none
    else
      match scanQuoted q r with
      | some (cs, rest) => some (c :: cs, rest)
      | none => none

/-- Match a quoted token delimited by the given quote character, returning
the token with its surrounding quotes. -/
def matchQuotedWith (q : Char) (s : List Char) : Option (String × List Char) :=
  match s with
  | c :: r =>
    if c = q then
      match scanQuoted q r with
      | some (cs, rest) => some (String.mk (q :: cs ++ [q]), rest)
      | none => none
    else none
  | [] => none

/-- The quoted-value regex: a double-quoted token or a single-quoted one. -/
def matchQuoted (s : List Char) : Option (String × List Char) :=
  match matchQuotedWith '"' s with
  | some x => some x
  | none => matchQuotedWith '\'' s

/-- ArgumentWithoutQuotes grammar: name() ':' bare-value regex. -/
def parseArgNoQuotes (s : List Char) : Option (RArg × List Char) :=
  match parseIdent s with
  | none => none
  | some (nm, r1) =>
    match expectChar ':' r1 with
    | none => none
    | some r2 =>
      match matchBare (skipWs r2) with
      | some (tok, r3) => some (⟨nm, .bare tok⟩, r3)
      | none => none

/-- ArgumentWithQuotes grammar: name() ':' quoted regex. -/
def parseArgQuotes (s : List Char) : Option (RArg × List Char) :=
  match parseIdent s with
  | none => none
  | some (nm, r1) =>
    match expectChar ':' r1 with
    | none => none
    | some r2 =>
      match matchQuoted (skipWs r2) with
      | some (tok, r3) => some (⟨nm, .quoted tok⟩, r3)
      | none => none

/-- Ordered choice of the two argument forms, unquoted tried first. -/
def parseArg (s : List Char) : Option (RArg × List Char) :=
  match parseArgNoQuotes s with
  | some x => some x
  | none => parseArgQuotes s

/-- Repetition of the argument csl: each iteration matches the separator
(',' or the empty string, committed in that order) and one argument; the
first failing iteration stops the loop and restores the position. -/
def parseArgsLoop : Nat → List RArg → List Char → List RArg × List Char
  | 0, acc, s => (acc, s)
  | fuel + 1, acc, s =>
    let attempt : Option (RArg × List Char) :=
      match expectChar ',' s with
      | some r1 => parseArg r1
      | none => parseArg s
    match attempt with
    | some (a, r) => parseArgsLoop fuel (acc ++ [a]) r
    | none => (acc, s)

/-- Arguments grammar: optional csl of arguments. -/
def parseArgsStar (fuel : Nat) (s : List Char) : List RArg × List Char :=
  match parseArg s with
  | none => ([], s)
  | some (a, r) => parseArgsLoop fuel [a] r

/-- ArgumentsBlock grammar: optional('(' Arguments optional(',') ')'); if
anything inside the optional group fails the whole group matches the empty
string and consumes nothing. -/
def parseArgsBlock (fuel : Nat) (s : List Char) : List RArg × List Char :=
  match expectChar '(' s with
  | none => ([], s)
  | some r1 =>
    let st := parseArgsStar fuel r1
    let r3 := match expectChar ',' st.2 with
      | some x => x
      | none => st.2
    match expectChar ')' r3 with
    | some r4 => (st.1, r4)
    | none => ([], s)

mutual
/-- Block grammar: ArgumentsBlock '{' BlockBody optional(',') '}'. -/
def parseBlock : Nat → List Char → Option (RawBlock × List Char)
  | 0, _ => none
  | fuel + 1, s =>
    let ab := parseArgsBlock fuel s
    match expectChar '{' ab.2 with
    | none => none
    | some s2 =>
      match parseBodyStar fuel s2 with
      | (body, s3) =>
        let s4 := match expectChar ',' s3 with
          | some x => x
          | none => s3
        match expectChar '}' s4 with
        | some s5 => some (RawBlock.mk ab.1 body, s5)
        | none => none

/-- BlockBody grammar: optional csl of fields. -/
def parseBodyStar : Nat → List Char → RBody × List Char
  | 0, s => (.nil, s)
  | fuel + 1, s =>
    match parseField fuel s with
    | none => (.nil, s)
    | some (f, r) =>
      match parseBodyLoop fuel r with
      | (rest, r2) => (.cons f rest, r2)

/-- Repetition of the body csl, with the same committed separator
semantics as the argument csl. -/
def parseBodyLoop : Nat → List Char → RBody × List Char
  | 0, s => (.nil, s)
  | fuel + 1, s =>
    let attempt : Option (RField × List Char) :=
      match expectChar ',' s with
      | some r1 => parseField fuel r1
      | none => parseField fuel s
    match attempt with
    | some (f, r) =>
      match parseBodyLoop fuel r with
      | (rest, r2) => (.cons f rest, r2)
    | none => (.nil, s)

/-- One body item: the ordered choice ParentField, IncludedField,
ExcludedField, AllFields. -/
def parseField : Nat → List Char → Option (RField × List Char)
  | 0, _ => none
  | fuel + 1, s =>
    match parseParentField fuel s with
    | some x => some x
    | none =>
      match parseIncluded s with
      | some ((al, nm), r) => some (.includedF al nm, r)
      | none =>
        match parseExcluded s with
        | some (nm, r) => some (.excludedF nm, r)
        | none =>
          match expectChar '*' s with
          | some r => some (.allF, r)
          | none => none

/-- ParentField grammar: IncludedField Block. -/
def parseParentField : Nat → List Char → Option (RField × List Char)
  | 0, _ => none
  | fuel + 1, s =>
    match parseIncluded s with
    | none => none
    | some ((al, nm), r) =>
      match parseBlock fuel r with
      | none => none
      | some (blk, r2) => some (.parentF al nm blk, r2)
end

/-- Outcome of parse(): a pypeg2 SyntaxError from the grammar layer, or a
QueryFormatError carrying the conflicting field names. -/
inductive ParseErr where
  | synError : ParseErr
  | formatError : List String → ParseErr
deriving DecidableEq

/-- The grammar layer: pypeg2 parse(query, Block), which fails if the text
does not match or if text remains after the match. -/
def rawParse (s : String) : Option RawBlock :=
  match parseBlock (8 * (s.length + 2)) s.data with
  | some (b, rest) => if skipWs rest = [] then some b else none
  | none => none

/-- QueryParser.parse: run the grammar, then transform the raw tree. -/
def parse (s : String) : Except ParseErr Query :=
  match rawParse s with
  | none => .error .synError
  | some b =>
    match transformBlock none b with
    | .error l => .error (.formatError l)
    | .ok q => .ok q

mutual
/-- Wildcard invariant at every node of a Query tree: whenever
excluded_fields is non-empty, "*" occurs among included_fields. -/
def starInvQ : Query → Bool
  | .mk _ inc exc _ _ => (exc.isEmpty || inc.memFlat "*") && starInvF inc

/-- Wildcard invariant for every nested Query of an included_fields list. -/
def starInvF : Fields → Bool
  | .nil => true
  | .flat _ r => starInvF r
  | .nested q r => starInvQ q && starInvF r
end

mutual
/-- The claimed exclusion invariant at every node: whenever excluded_fields
is non-empty, included_fields holds only nested Query entries and the
wildcard, never another flat name. -/
def onlyNestedOrStarQ : Query → Bool
  | .mk _ inc exc _ _ =>
    (exc.isEmpty || onlyNestedOrStarEntries inc) && onlyNestedOrStarF inc

/-- Check that every flat entry of an included_fields list is "*". -/
def onlyNestedOrStarEntries : Fields → Bool
  | .nil => true
  | .flat x r => x == "*" && onlyNestedOrStarEntries r
  | .nested _ r => onlyNestedOrStarEntries r

/-- Recurse the claimed exclusion invariant into nested queries. -/
def onlyNestedOrStarF : Fields → Bool
  | .nil => true
  | .flat _ r => onlyNestedOrStarF r
  | .nested q r => onlyNestedOrStarQ q && onlyNestedOrStarF r
end

mutual
/-- Field-name invariant below a node: every nested Query appearing in an
included_fields list has a non-None field_name, recursively. -/
def namedNestedQ : Query → Bool
  | .mk _ inc _ _ _ => namedNestedF inc

/-- Field-name invariant for the entries of an included_fields list. -/
def namedNestedF : Fields → Bool
  | .nil => true
  | .flat _ r => namedNestedF r
  | .nested q r => q.field_name.isSome && namedNestedQ q && namedNestedF r
end

/-- Order-independent equality of two string lists seen as sets. -/
def sameSetStr (l1 l2 : List String) : Bool :=
  l1.all (fun x => l2.contains x) && l2.all (fun x => l1.contains x)

/-- Order-independent equality of two association lists seen as maps: the
lookup of every key mentioned on either side agrees. -/
def sameMap {α : Type} [DecidableEq α] (l1 l2 : List (String × α)) : Bool :=
  (l1.map Prod.fst ++ l2.map Prod.fst).all
    (fun k => decide (l1.lookup k = l2.lookup k))

mutual
/-- Structural equality in the sense of the determinism claim: field_name
equal, included_fields entrywise equal in order, excluded_fields equal as
sets, aliases and arguments equal as maps. -/
def structEqQ : Query → Query → Bool
  | .mk fn1 inc1 exc1 al1 ar1, .mk fn2 inc2 exc2 al2 ar2 =>
    decide (fn1 = fn2) && structEqF inc1 inc2 && sameSetStr exc1 exc2 &&
      sameMap al1 al2 && sameMap ar1 ar2

/-- Entrywise, order-preserving comparison of two included_fields lists. -/
def structEqF : Fields → Fields → Bool
  | .nil, .nil => true
  | .flat a r1, .flat b r2 => a == b && structEqF r1 r2
  | .nested q1 r1, .nested q2 r2 => structEqQ q1 q2 && structEqF r1 r2
  | _, _ => false
end

/-- Two parse errors have the same kind when both are syntax errors or both
are format errors. -/
def sameKind : ParseErr → ParseErr → Bool
  | .synError, .synError => true
  | .formatError _, .formatError _ => true
  | _, _ => false

/-- The aliases dict a block body gives rise to, accumulated in source
order with Python dict update semantics, independently of the transform. -/
def aliasesOfBody (body : RBody) (al : List (String × String)) :
    List (String × String) :=
  match body with
  | .nil => al
  | .cons f rest =>
    let al2 := match f with
      | .includedF (some a) nm => updateAssoc al nm a
      | .parentF (some a) nm _ => updateAssoc al nm a
      | _ => al
    aliasesOfBody rest al2

/-- Alias sources and targets of one block level intersect. -/
def levelFaulty (body : RBody) : Bool :=
  !(faultyOf (aliasesOfBody body [])).isEmpty

mutual
/-- Some nesting level of a raw block has intersecting alias sources and
targets. -/
def hasFaultyB : RawBlock → Bool
  | .mk _ body => levelFaulty body || hasFaultyBody body

/-- Some nesting level inside a block body has intersecting alias sources
and targets. -/
def hasFaultyBody : RBody → Bool
  | .nil => false
  | .cons f rest =>
    (match f with
      | .parentF _ _ blk => hasFaultyB blk
      | _ => false) || hasFaultyBody rest
end

mutual
/-- The given name list is exactly the conflict set of some faulty nesting
level of the raw block. -/
def namesSomeLevel : RawBlock → List String → Bool
  | .mk _ body, l =>
    (levelFaulty body && decide (faultyOf (aliasesOfBody body []) = l)) ||
      namesSomeLevelBody body l

/-- The given name list is the conflict set of some faulty level inside a
block body. -/
def namesSomeLevelBody : RBody → List String → Bool
  | .nil, _ => false
  | .cons f rest, l =>
    (match f with
      | .parentF _ _ blk => namesSomeLevel blk l
      | _ => false) || namesSomeLevelBody rest l
end

mutual
/-- Values of the nested dict produced by
EagerLoadingMixin.get_dict_parsed_restql_query: a boolean or a nested
dict. -/
inductive PVal where
  | b : Bool → PVal
  | m : PMap → PVal
/-- The nested dict itself, an insertion-ordered association list with
Python dict assignment semantics; flat field names are keys some s, and a
nested child is keyed by its field_name. -/
inductive PMap where
  | nil : PMap
  | cons : Option String → PVal → PMap → PMap
end

/-- Python dict assignment d[k] = v: replace in place or append. -/
def pupdate : PMap → Option String → PVal → PMap
  | .nil, k, v => .cons k v .nil
  | .cons k0 v0 rest, k, v =>
    if k0 = k then .cons k0 v rest else .cons k0 v0 (pupdate rest k v)

/-- Python dict lookup d[k]. -/
def plookup : PMap → Option String → Option PVal
  | .nil, _ => none
  | .cons k0 v rest, k => if k0 = k then some v else plookup rest k

/-- The excluded_fields pass of get_dict_parsed_restql_query. -/
def addExcluded (m : PMap) (exc : List String) : PMap :=
  exc.foldl (fun m2 nm => pupdate m2 (some nm) (.b false)) m

mutual
/-- EagerLoadingMixin.get_dict_parsed_restql_query: the included pass maps
flat names to True and nested children to their converted dict under their
field_name, then the excluded pass maps excluded names to False. -/
def qToDict : Query → PMap
  | .mk _ inc exc _ _ => addExcluded (addIncluded .nil inc) exc

/-- The included_fields pass of get_dict_parsed_restql_query. -/
def addIncluded : PMap → Fields → PMap
  | m, .nil => m
  | m, .flat s r => addIncluded (pupdate m (some s) (.b true)) r
  | m, .nested q r => addIncluded (pupdate m q.field_name (.m (qToDict q))) r
end

/-- Membership of a nested Query in an included_fields list. -/
def Fields.memNestedIn : Fields → Query → Prop
  | .nil, _ => False
  | .flat _ r, c => r.memNestedIn c
  | .nested q r, c => q = c ∨ r.memNestedIn c

/-- Keys contributed by an included_fields list to the converted dict. -/
def includedKeys : Fields → List (Option String)
  | .nil => []
  | .flat s r => some s :: includedKeys r
  | .nested q r => q.field_name :: includedKeys r

/-- The dict-conversion property claimed for every Query tree: every flat
included entry maps to True, every excluded name maps to False, and every
nested entry maps to its converted child under its field_name. -/
def dictClaim (q : Query) : Prop :=
  (∀ s, q.included_fields.memFlat s = true →
    plookup (qToDict q) (some s) = some (.b true)) ∧
  (∀ nm, nm ∈ q.excluded_fields →
    plookup (qToDict q) (some nm) = some (.b false)) ∧
  (∀ c, q.included_fields.memNestedIn c →
    plookup (qToDict q) c.field_name = some (.m (qToDict c)))



theorem memFlat_appendFlat : ∀ (l : Fields) (s t : String),
    (l.appendFlat s).memFlat t = (l.memFlat t || s == t)
  | .nil, s, t => by simp [Fields.appendFlat, Fields.memFlat]
  | .flat x r, s, t => by
    simp [Fields.appendFlat, Fields.memFlat, memFlat_appendFlat r s t,
      Bool.or_assoc]
  | .nested q r, s, t => by
    simp [Fields.appendFlat, Fields.memFlat, memFlat_appendFlat r s t]

theorem memFlat_appendNested : ∀ (l : Fields) (q : Query) (t : String),
    (l.appendNested q).memFlat t = l.memFlat t
  | .nil, q, t => by simp [Fields.appendNested, Fields.memFlat]
  | .flat x r, q, t => by
    simp [Fields.appendNested, Fields.memFlat, memFlat_appendNested r q t]
  | .nested q0 r, q, t => by
    simp [Fields.appendNested, Fields.memFlat, memFlat_appendNested r q t]

theorem starInvF_appendFlat : ∀ (l : Fields) (s : String),
    starInvF (l.appendFlat s) = starInvF l
  | .nil, s => by simp [Fields.appendFlat, starInvF]
  | .flat x r, s => by
    simp [Fields.appendFlat, starInvF, starInvF_appendFlat r s]
  | .nested q r, s => by
    simp [Fields.appendFlat, starInvF, starInvF_appendFlat r s]

theorem starInvF_appendNested : ∀ (l : Fields) (q : Query),
    starInvF (l.appendNested q) = (starInvF l && starInvQ q)
  | .nil, q => by simp [Fields.appendNested, starInvF]
  | .flat x r, q => by
    simp [Fields.appendNested, starInvF, starInvF_appendNested r q]
  | .nested q0 r, q => by
    simp [Fields.appendNested, starInvF, starInvF_appendNested r q,
      Bool.and_assoc]

theorem countFlat_appendFlat : ∀ (l : Fields) (s t : String),
    (l.appendFlat s).countFlat t = l.countFlat t + (if s == t then 1 else 0)
  | .nil, s, t => by simp [Fields.appendFlat, Fields.countFlat]
  | .flat x r, s, t => by
    simp [Fields.appendFlat, Fields.countFlat, countFlat_appendFlat r s t]
    omega
  | .nested q r, s, t => by
    simp [Fields.appendFlat, Fields.countFlat, countFlat_appendFlat r s t]

/-- The post-pass leaves included_fields unchanged when "*" is already
present. -/
theorem postPass_of_memStar (inc : Fields) (exc : List String)
    (h : inc.memFlat "*" = true) : postPass inc exc = inc := by
  simp [postPass, h]

/-- The post-pass guarantees the wildcard whenever exclusions exist. -/
theorem postPass_memStar (inc : Fields) (exc : List String)
    (h : exc ≠ []) : (postPass inc exc).memFlat "*" = true := by
  unfold postPass
  by_cases hm : inc.memFlat "*" = true
  · simp [hm]
  · simp only [Bool.not_eq_true] at hm
    simp only [hm, Bool.not_false, Bool.and_true]
    cases exc with
    | nil => exact absurd rfl h
    | cons e rest => simp [List.isEmpty, memFlat_appendFlat]

/-- The post-pass never changes the invariant of the nested entries. -/
theorem starInvF_postPass (inc : Fields) (exc : List String) :
    starInvF (postPass inc exc) = starInvF inc := by
  unfold postPass
  by_cases hc : (!exc.isEmpty && !inc.memFlat "*") = true
  · simp [hc, starInvF_appendFlat]
  · simp only [Bool.not_eq_true] at hc
    simp [hc]

mutual
/-- Every Query produced by _transform_block satisfies the wildcard
invariant at every node. -/
theorem transformBlock_starInv : ∀ (p : Option String) (b : RawBlock)
    (q : Query), transformBlock p b = .ok q → starInvQ q = true
  | p, .mk args body, q, h => by
    unfold transformBlock at h
    cases htb : transformBody body Fields.nil [] [] with
    | error l => rw [htb] at h; exact absurd h (by simp)
    | ok out =>
      obtain ⟨inc, exc, al⟩ := out
      rw [htb] at h
      simp only [] at h
      by_cases hf : (faultyOf al).isEmpty = true
      · rw [if_pos hf] at h
        have hq := (Except.ok.injEq _ _).mp h
        subst hq
        have hinc : starInvF inc = true :=
          transformBody_starInv body Fields.nil [] [] (inc, exc, al) htb rfl
        simp only [starInvQ, starInvF_postPass, hinc, Bool.and_true]
        cases hexc : exc.isEmpty with
        | true => simp
        | false =>
          have : exc ≠ [] := by
            cases exc with
            | nil => simp at hexc
            | cons a b => simp
          simp [postPass_memStar inc exc this]
      · rw [if_neg hf] at h
        exact absurd h (by simp)

/-- The body loop preserves the wildcard invariant of the accumulated
included_fields list. -/
theorem transformBody_starInv : ∀ (body : RBody) (inc : Fields)
    (exc : List String) (al : List (String × String)) out,
    transformBody body inc exc al = .ok out → starInvF inc = true →
    starInvF out.1 = true
  | .nil, inc, exc, al, out, h, hi => by
    unfold transformBody at h
    have := (Except.ok.injEq _ _).mp h
    subst this
    exact hi
  | .cons (.includedF alO nm) rest, inc, exc, al, out, h, hi => by
    unfold transformBody at h
    exact transformBody_starInv rest (inc.appendFlat nm) exc _ out h
      (by rw [starInvF_appendFlat]; exact hi)
  | .cons (.excludedF nm) rest, inc, exc, al, out, h, hi => by
    unfold transformBody at h
    exact transformBody_starInv rest inc (exc ++ [nm]) al out h hi
  | .cons .allF rest, inc, exc, al, out, h, hi => by
    unfold transformBody at h
    exact transformBody_starInv rest (inc.appendFlat "*") exc al out h
      (by rw [starInvF_appendFlat]; exact hi)
  | .cons (.parentF alO nm blk) rest, inc, exc, al, out, h, hi => by
    unfold transformBody at h
    cases alO with
    | none =>
      have h2 : (match transformBlock (some nm) blk with
          | Except.error l => Except.error l
          | Except.ok child =>
            transformBody rest (inc.appendNested child) exc al) =
          Except.ok out := h
      cases hc : transformBlock (some nm) blk with
      | error l => rw [hc] at h2; exact absurd h2 (by simp)
      | ok child =>
        rw [hc] at h2
        have hchild : starInvQ child = true :=
          transformBlock_starInv (some nm) blk child hc
        exact transformBody_starInv rest (inc.appendNested child) exc _ out h2
          (by rw [starInvF_appendNested, hi, hchild]; rfl)
    | some a =>
      have h2 : (match transformBlock (some nm) blk with
          | Except.error l => Except.error l
          | Except.ok child =>
            transformBody rest (inc.appendNested child) exc
              (updateAssoc al nm a)) = Except.ok out := h
      cases hc : transformBlock (some nm) blk with
      | error l => rw [hc] at h2; exact absurd h2 (by simp)
      | ok child =>
        rw [hc] at h2
        have hchild : starInvQ child = true :=
          transformBlock_starInv (some nm) blk child hc
        exact transformBody_starInv rest (inc.appendNested child) exc _ out h2
          (by rw [starInvF_appendNested, hi, hchild]; rfl)
end

/-- A successful parse factors through the grammar layer and the
transformer. -/
theorem parse_ok_split (s : String) (q : Query) (h : parse s = .ok q) :
    ∃ b, rawParse s = some b ∧ transformBlock none b = .ok q := by
  unfold parse at h
  cases hr : rawParse s with
  | none => rw [hr] at h; exact absurd h (by simp)
  | some b =>
    rw [hr] at h
    have h2 : (match transformBlock none b with
        | Except.error l => Except.error (ParseErr.formatError l)
        | Except.ok q2 => Except.ok q2) = Except.ok q := h
    cases ht : transformBlock none b with
    | error l => rw [ht] at h2; exact absurd h2 (by simp)
    | ok q2 =>
      rw [ht] at h2
      have := (Except.ok.injEq _ _).mp h2
      subst this
      exact ⟨b, rfl, ht⟩

/-- C1: for every query string that parses successfully, every Query node
whose excluded_fields is non-empty contains "*" in its included_fields; the
post-pass appends "*" only when it is not already present, adding at most
one occurrence; and parsing the query selecting minus author yields
included_fields with exactly the wildcard and excluded_fields with author. -/
theorem c1_exclusion_implies_wildcard :
    (∀ s q, parse s = Except.ok q → starInvQ q = true) ∧
    (∀ inc exc, (inc.memFlat "*" = true → postPass inc exc = inc) ∧
      (postPass inc exc).countFlat "*" ≤ inc.countFlat "*" + 1) ∧
    parse "\x7b-author\x7d" =
      Except.ok (Query.mk none (Fields.flat "*" Fields.nil) ["author"] [] []) := by
  refine ⟨fun s q h => ?_, fun inc exc => ⟨postPass_of_memStar inc exc, ?_⟩, rfl⟩
  · obtain ⟨b, hb, ht⟩ := parse_ok_split s q h
    exact transformBlock_starInv none b q ht
  · unfold postPass
    by_cases hc : (!exc.isEmpty && !inc.memFlat "*") = true
    · rw [if_pos hc, countFlat_appendFlat]
      split <;> omega
    · rw [if_neg hc]
      omega

/-- Witness for C1: the invariant and the post-pass facts evaluated on the
tree parsed from the concrete query excluding author. -/
theorem c1_exclusion_implies_wildcard_witness :
    starInvQ (Query.mk none (Fields.flat "*" Fields.nil) ["author"] [] []) = true ∧
    postPass (Fields.flat "*" Fields.nil) ["author"] = Fields.flat "*" Fields.nil :=
  ⟨c1_exclusion_implies_wildcard.1 "\x7b-author\x7d"
      (Query.mk none (Fields.flat "*" Fields.nil) ["author"] [] []) rfl,
    (c1_exclusion_implies_wildcard.2.1 (Fields.flat "*" Fields.nil) ["author"]).1 rfl⟩

/-- C2 counterexample: the query including name and excluding age parses
successfully, yet its root has non-empty excluded_fields while its
included_fields holds the flat name "name", so the claimed invariant fails. -/
theorem c2_counterexample :
    ¬ (∀ s q, parse s = Except.ok q → onlyNestedOrStarQ q = true) := by
  intro hall
  have h := hall "\x7bname,-age\x7d"
    (Query.mk none (Fields.flat "name" (Fields.flat "*" Fields.nil)) ["age"] [] [])
    rfl
  have h2 : onlyNestedOrStarQ
      (Query.mk none (Fields.flat "name" (Fields.flat "*" Fields.nil)) ["age"] [] [])
      = false := rfl
  exact Bool.noConfusion (h2.symm.trans h)

/-- C2 amended: when excluded_fields is non-empty, included_fields is
guaranteed to contain the wildcard "*", but flat field names other than
"*" may legitimately appear alongside the exclusions. -/
theorem c2_amended_wildcard_with_exclusions (s : String) (q : Query)
    (h : parse s = Except.ok q) : starInvQ q = true := by
  obtain ⟨b, hb, ht⟩ := parse_ok_split s q h
  exact transformBlock_starInv none b q ht

/-- Witness for the amended C2 on a query mixing flat, excluded and nested
fields at two levels. -/
theorem c2_amended_wildcard_with_exclusions_witness :
    starInvQ (Query.mk none
      (Fields.flat "a" (Fields.nested
        (Query.mk (some "c") (Fields.flat "*" Fields.nil) ["d"] [] [])
        (Fields.flat "*" Fields.nil))) ["b"] [] []) = true :=
  c2_amended_wildcard_with_exclusions "\x7ba,-b,c\x7b-d\x7d\x7d" _ rfl

/-- The transformer stores the parent_field argument as the field_name of
the Query it builds. -/
theorem transformBlock_field_name (p : Option String) (b : RawBlock)
    (q : Query) (h : transformBlock p b = .ok q) : q.field_name = p := by
  cases b with
  | mk args body =>
    unfold transformBlock at h
    cases htb : transformBody body Fields.nil [] [] with
    | error l => rw [htb] at h; exact absurd h (by simp)
    | ok out =>
      obtain ⟨inc, exc, al⟩ := out
      rw [htb] at h
      simp only [] at h
      by_cases hf : (faultyOf al).isEmpty = true
      · rw [if_pos hf] at h
        have hq := (Except.ok.injEq _ _).mp h
        subst hq
        rfl
      · rw [if_neg hf] at h
        exact absurd h (by simp)

theorem namedNestedF_appendFlat : ∀ (l : Fields) (s : String),
    namedNestedF (l.appendFlat s) = namedNestedF l
  | .nil, s => by simp [Fields.appendFlat, namedNestedF]
  | .flat x r, s => by
    simp [Fields.appendFlat, namedNestedF, namedNestedF_appendFlat r s]
  | .nested q r, s => by
    simp [Fields.appendFlat, namedNestedF, namedNestedF_appendFlat r s]

theorem namedNestedF_appendNested : ∀ (l : Fields) (q : Query),
    namedNestedF (l.appendNested q) =
      (namedNestedF l && (q.field_name.isSome && namedNestedQ q))
  | .nil, q => by simp [Fields.appendNested, namedNestedF]
  | .flat x r, q => by
    simp [Fields.appendNested, namedNestedF, namedNestedF_appendNested r q]
  | .nested q0 r, q => by
    simp only [Fields.appendNested, namedNestedF, namedNestedF_appendNested r q]
    simp [Bool.and_assoc]

mutual
/-- Every Query produced by the transformer has only named nested
sub-queries. -/
theorem transformBlock_named : ∀ (p : Option String) (b : RawBlock)
    (q : Query), transformBlock p b = .ok q → namedNestedQ q = true
  | p, .mk args body, q, h => by
    unfold transformBlock at h
    cases htb : transformBody body Fields.nil [] [] with
    | error l => rw [htb] at h; exact absurd h (by simp)
    | ok out =>
      obtain ⟨inc, exc, al⟩ := out
      rw [htb] at h
      simp only [] at h
      by_cases hf : (faultyOf al).isEmpty = true
      · rw [if_pos hf] at h
        have hq := (Except.ok.injEq _ _).mp h
        subst hq
        have hinc : namedNestedF inc = true :=
          transformBody_named body Fields.nil [] [] (inc, exc, al) htb rfl
        show namedNestedF (postPass inc exc) = true
        unfold postPass
        by_cases hc : (!exc.isEmpty && !inc.memFlat "*") = true
        · rw [if_pos hc, namedNestedF_appendFlat]; exact hinc
        · rw [if_neg hc]; exact hinc
      · rw [if_neg hf] at h
        exact absurd h (by simp)

/-- The body loop preserves the named-nested invariant of the accumulated
included_fields list. -/
theorem transformBody_named : ∀ (body : RBody) (inc : Fields)
    (exc : List String) (al : List (String × String)) out,
    transformBody body inc exc al = .ok out → namedNestedF inc = true →
    namedNestedF out.1 = true
  | .nil, inc, exc, al, out, h, hi => by
    unfold transformBody at h
    have := (Except.ok.injEq _ _).mp h
    subst this
    exact hi
  | .cons (.includedF alO nm) rest, inc, exc, al, out, h, hi => by
    unfold transformBody at h
    exact transformBody_named rest (inc.appendFlat nm) exc _ out h
      (by rw [namedNestedF_appendFlat]; exact hi)
  | .cons (.excludedF nm) rest, inc, exc, al, out, h, hi => by
    unfold transformBody at h
    exact transformBody_named rest inc (exc ++ [nm]) al out h hi
  | .cons .allF rest, inc, exc, al, out, h, hi => by
    unfold transformBody at h
    exact transformBody_named rest (inc.appendFlat "*") exc al out h
      (by rw [namedNestedF_appendFlat]; exact hi)
  | .cons (.parentF alO nm blk) rest, inc, exc, al, out, h, hi => by
    unfold transformBody at h
    cases alO with
    | none =>
      have h2 : (match transformBlock (some nm) blk with
          | Except.error l => Except.error l
          | Except.ok child =>
            transformBody rest (inc.appendNested child) exc al) =
          Except.ok out := h
      cases hc : transformBlock (some nm) blk with
      | error l => rw [hc] at h2; exact absurd h2 (by simp)
      | ok child =>
        rw [hc] at h2
        have hn : namedNestedQ child = true :=
          transformBlock_named (some nm) blk child hc
        have hfn : child.field_name = some nm :=
          transformBlock_field_name (some nm) blk child hc
        exact transformBody_named rest (inc.appendNested child) exc _ out h2
          (by rw [namedNestedF_appendNested, hi, hn, hfn]; rfl)
    | some a =>
      have h2 : (match transformBlock (some nm) blk with
          | Except.error l => Except.error l
          | Except.ok child =>
            transformBody rest (inc.appendNested child) exc
              (updateAssoc al nm a)) = Except.ok out := h
      cases hc : transformBlock (some nm) blk with
      | error l => rw [hc] at h2; exact absurd h2 (by simp)
      | ok child =>
        rw [hc] at h2
        have hn : namedNestedQ child = true :=
          transformBlock_named (some nm) blk child hc
        have hfn : child.field_name = some nm :=
          transformBlock_field_name (some nm) blk child hc
        exact transformBody_named rest (inc.appendNested child) exc _ out h2
          (by rw [namedNestedF_appendNested, hi, hn, hfn]; rfl)
end

/-- C6: for every query string that parses successfully, the root Query has
field_name none, and every nested Query in the tree has a non-None
field_name, equal to the name it is stored under in its parent. -/
theorem c6_field_names :
    ∀ s q, parse s = Except.ok q →
      q.field_name = none ∧ namedNestedQ q = true := by
  intro s q h
  obtain ⟨b, hb, ht⟩ := parse_ok_split s q h
  exact ⟨transformBlock_field_name none b q ht, transformBlock_named none b q ht⟩

/-- Witness for C6 on a two-level nested query. -/
theorem c6_field_names_witness :
    (Query.mk none
      (Fields.nested (Query.mk (some "a") (Fields.flat "b" Fields.nil) [] [] [])
        Fields.nil) [] [] []).field_name = none ∧
    namedNestedQ (Query.mk none
      (Fields.nested (Query.mk (some "a") (Fields.flat "b" Fields.nil) [] [] [])
        Fields.nil) [] [] []) = true :=
  c6_field_names "\x7ba\x7bb\x7d\x7d" _ rfl

theorem sameSetStr_refl (l : List String) : sameSetStr l l = true := by
  simp only [sameSetStr, Bool.and_self, List.all_eq_true]
  intro x hx
  simpa using hx

theorem sameMap_refl {α : Type} [DecidableEq α] (l : List (String × α)) :
    sameMap l l = true := by
  simp only [sameMap, List.all_eq_true]
  intro k hk
  simp

mutual
/-- The determinism equivalence is reflexive on every Query. -/
theorem structEqQ_refl : ∀ (q : Query), structEqQ q q = true
  | .mk fn inc exc al ar => by
    simp [structEqQ, structEqF_refl inc, sameSetStr_refl exc,
      sameMap_refl al, sameMap_refl ar]

/-- The determinism equivalence is reflexive on included_fields lists. -/
theorem structEqF_refl : ∀ (l : Fields), structEqF l l = true
  | .nil => rfl
  | .flat x r => by simp [structEqF, structEqF_refl r]
  | .nested q r => by simp [structEqF, structEqQ_refl q, structEqF_refl r]
end

theorem sameKind_refl (e : ParseErr) : sameKind e e = true := by
  cases e <;> rfl

/-- C7: parsing is deterministic; two parses of the same text either both
succeed with structurally equal trees (field order preserved in
included_fields, order-independent equality for excluded_fields, aliases
and arguments) or both fail with the same error kind. -/
theorem c7_determinism :
    (∀ s q1 q2, parse s = Except.ok q1 → parse s = Except.ok q2 →
      structEqQ q1 q2 = true) ∧
    (∀ s e1 e2, parse s = Except.error e1 → parse s = Except.error e2 →
      sameKind e1 e2 = true) := by
  constructor
  · intro s q1 q2 h1 h2
    have : q1 = q2 := by
      have h := h1.symm.trans h2
      exact (Except.ok.injEq _ _).mp h
    subst this
    exact structEqQ_refl q1
  · intro s e1 e2 h1 h2
    have : e1 = e2 := by
      have h := h1.symm.trans h2
      exact (Except.error.injEq _ _).mp h
    subst this
    exact sameKind_refl e1

/-- Witness for C7 at concrete inputs, one succeeding and one failing. -/
theorem c7_determinism_witness :
    structEqQ (Query.mk none (Fields.flat "a" Fields.nil) [] [] [])
      (Query.mk none (Fields.flat "a" Fields.nil) [] [] []) = true ∧
    sameKind ParseErr.synError ParseErr.synError = true :=
  ⟨c7_determinism.1 "\x7ba\x7d" _ _ rfl rfl,
    c7_determinism.2 "\x7b" _ _ rfl rfl⟩

/-- Whether an Except value is an error. -/
def isErr {ε α : Type} : Except ε α → Bool
  | .error _ => true
  | .ok _ => false

/-- The alias map a successful body loop returns is the one accumulated in
source order from the body items. -/
theorem transformBody_aliases : ∀ (body : RBody) (inc : Fields)
    (exc : List String) (al : List (String × String)) out,
    transformBody body inc exc al = .ok out → out.2.2 = aliasesOfBody body al
  | .nil, inc, exc, al, out, h => by
    unfold transformBody at h
    have := (Except.ok.injEq _ _).mp h
    subst this
    rfl
  | .cons (.includedF alO nm) rest, inc, exc, al, out, h => by
    unfold transformBody at h
    cases alO with
    | none =>
      have := transformBody_aliases rest (inc.appendFlat nm) exc al out h
      simpa [aliasesOfBody] using this
    | some a =>
      have := transformBody_aliases rest (inc.appendFlat nm) exc
        (updateAssoc al nm a) out h
      simpa [aliasesOfBody] using this
  | .cons (.excludedF nm) rest, inc, exc, al, out, h => by
    unfold transformBody at h
    have := transformBody_aliases rest inc (exc ++ [nm]) al out h
    simpa [aliasesOfBody] using this
  | .cons .allF rest, inc, exc, al, out, h => by
    unfold transformBody at h
    have := transformBody_aliases rest (inc.appendFlat "*") exc al out h
    simpa [aliasesOfBody] using this
  | .cons (.parentF alO nm blk) rest, inc, exc, al, out, h => by
    unfold transformBody at h
    cases alO with
    | none =>
      have h2 : (match transformBlock (some nm) blk with
          | Except.error l => Except.error l
          | Except.ok child =>
            transformBody rest (inc.appendNested child) exc al) =
          Except.ok out := h
      cases hc : transformBlock (some nm) blk with
      | error l => rw [hc] at h2; exact absurd h2 (by simp)
      | ok child =>
        rw [hc] at h2
        have := transformBody_aliases rest (inc.appendNested child) exc al out h2
        simpa [aliasesOfBody] using this
    | some a =>
      have h2 : (match transformBlock (some nm) blk with
          | Except.error l => Except.error l
          | Except.ok child =>
            transformBody rest (inc.appendNested child) exc
              (updateAssoc al nm a)) = Except.ok out := h
      cases hc : transformBlock (some nm) blk with
      | error l => rw [hc] at h2; exact absurd h2 (by simp)
      | ok child =>
        rw [hc] at h2
        have := transformBody_aliases rest (inc.appendNested child) exc
          (updateAssoc al nm a) out h2
        simpa [aliasesOfBody] using this

mutual
/-- The transformer fails on a block exactly when some nesting level of the
block has intersecting alias sources and targets. -/
theorem transformBlock_isErr : ∀ (p : Option String) (b : RawBlock),
    isErr (transformBlock p b) = hasFaultyB b
  | p, .mk args body => by
    unfold transformBlock
    cases htb : transformBody body Fields.nil [] [] with
    | error l =>
      have hb : hasFaultyBody body = true := by
        rw [← transformBody_isErr body Fields.nil [] [], htb]
        rfl
      simp [hasFaultyB, hb, isErr]
    | ok out =>
      obtain ⟨inc, exc, al⟩ := out
      have hb : hasFaultyBody body = false := by
        rw [← transformBody_isErr body Fields.nil [] [], htb]
        rfl
      have hal : al = aliasesOfBody body [] :=
        transformBody_aliases body Fields.nil [] [] (inc, exc, al) htb
      simp only []
      by_cases hf : (faultyOf al).isEmpty = true
      · rw [if_pos hf]
        simp [hasFaultyB, hb, levelFaulty, ← hal, hf, isErr]
      · rw [if_neg hf]
        simp only [Bool.not_eq_true] at hf
        simp [hasFaultyB, hb, levelFaulty, ← hal, hf, isErr]

/-- The body loop fails exactly when some nesting level inside the body has
intersecting alias sources and targets. -/
theorem transformBody_isErr : ∀ (body : RBody) (inc : Fields)
    (exc : List String) (al : List (String × String)),
    isErr (transformBody body inc exc al) = hasFaultyBody body
  | .nil, inc, exc, al => rfl
  | .cons (.includedF alO nm) rest, inc, exc, al => by
    cases alO with
    | none =>
      have := transformBody_isErr rest (inc.appendFlat nm) exc al
      simpa [hasFaultyBody] using this
    | some a =>
      have := transformBody_isErr rest (inc.appendFlat nm) exc (updateAssoc al nm a)
      simpa [hasFaultyBody] using this
  | .cons (.excludedF nm) rest, inc, exc, al => by
    have := transformBody_isErr rest inc (exc ++ [nm]) al
    simpa [hasFaultyBody] using this
  | .cons .allF rest, inc, exc, al => by
    have := transformBody_isErr rest (inc.appendFlat "*") exc al
    simpa [hasFaultyBody] using this
  | .cons (.parentF alO nm blk) rest, inc, exc, al => by
    have hblk : isErr (transformBlock (some nm) blk) = hasFaultyB blk :=
      transformBlock_isErr (some nm) blk
    cases alO with
    | none =>
      show isErr (match transformBlock (some nm) blk with
          | Except.error l => Except.error l
          | Except.ok child =>
            transformBody rest (inc.appendNested child) exc al) =
        hasFaultyBody (.cons (.parentF none nm blk) rest)
      cases hc : transformBlock (some nm) blk with
      | error l =>
        rw [hc] at hblk
        simp [hasFaultyBody, ← hblk, isErr]
      | ok child =>
        rw [hc] at hblk
        have := transformBody_isErr rest (inc.appendNested child) exc al
        simpa [hasFaultyBody, ← hblk, isErr] using this
    | some a =>
      show isErr (match transformBlock (some nm) blk with
          | Except.error l => Except.error l
          | Except.ok child =>
            transformBody rest (inc.appendNested child) exc
              (updateAssoc al nm a)) =
        hasFaultyBody (.cons (.parentF (some a) nm blk) rest)
      cases hc : transformBlock (some nm) blk with
      | error l =>
        rw [hc] at hblk
        simp [hasFaultyBody, ← hblk, isErr]
      | ok child =>
        rw [hc] at hblk
        have := transformBody_isErr rest (inc.appendNested child) exc
          (updateAssoc al nm a)
        simpa [hasFaultyBody, ← hblk, isErr] using this
end

mutual
/-- When the transformer fails on a block, the reported name list is the
conflict set of some faulty nesting level of that block. -/
theorem transformBlock_names : ∀ (p : Option String) (b : RawBlock)
    (l : List String), transformBlock p b = .error l → namesSomeLevel b l = true
  | p, .mk args body, l, h => by
    unfold transformBlock at h
    cases htb : transformBody body Fields.nil [] [] with
    | error l2 =>
      rw [htb] at h
      have hl : l2 = l := (Except.error.injEq _ _).mp h
      subst hl
      have := transformBody_names body Fields.nil [] [] l2 htb
      simp [namesSomeLevel, this]
    | ok out =>
      obtain ⟨inc, exc, al⟩ := out
      rw [htb] at h
      simp only [] at h
      have hal : al = aliasesOfBody body [] :=
        transformBody_aliases body Fields.nil [] [] (inc, exc, al) htb
      by_cases hf : (faultyOf al).isEmpty = true
      · rw [if_pos hf] at h
        exact absurd h (by simp)
      · rw [if_neg hf] at h
        have hl : faultyOf al = l := (Except.error.injEq _ _).mp h
        simp only [Bool.not_eq_true] at hf
        simp [namesSomeLevel, levelFaulty, ← hal, hf, hl]
        left
        rw [← hl]
        intro hnil
        rw [hnil] at hf
        simp at hf

/-- When the body loop fails, the reported name list is the conflict set of
some faulty level inside the body. -/
theorem transformBody_names : ∀ (body : RBody) (inc : Fields)
    (exc : List String) (al : List (String × String)) (l : List String),
    transformBody body inc exc al = .error l → namesSomeLevelBody body l = true
  | .nil, inc, exc, al, l, h => by
    unfold transformBody at h
    exact absurd h (by simp)
  | .cons (.includedF alO nm) rest, inc, exc, al, l, h => by
    unfold transformBody at h
    cases alO with
    | none =>
      have := transformBody_names rest (inc.appendFlat nm) exc al l h
      simp [namesSomeLevelBody, this]
    | some a =>
      have := transformBody_names rest (inc.appendFlat nm) exc
        (updateAssoc al nm a) l h
      simp [namesSomeLevelBody, this]
  | .cons (.excludedF nm) rest, inc, exc, al, l, h => by
    unfold transformBody at h
    have := transformBody_names rest inc (exc ++ [nm]) al l h
    simp [namesSomeLevelBody, this]
  | .cons .allF rest, inc, exc, al, l, h => by
    unfold transformBody at h
    have := transformBody_names rest (inc.appendFlat "*") exc al l h
    simp [namesSomeLevelBody, this]
  | .cons (.parentF alO nm blk) rest, inc, exc, al, l, h => by
    unfold transformBody at h
    cases alO with
    | none =>
      have h2 : (match transformBlock (some nm) blk with
          | Except.error l2 => Except.error l2
          | Except.ok child =>
            transformBody rest (inc.appendNested child) exc al) =
          Except.error l := h
      cases hc : transformBlock (some nm) blk with
      | error l2 =>
        rw [hc] at h2
        have hl : l2 = l := (Except.error.injEq _ _).mp h2
        subst hl
        have := transformBlock_names (some nm) blk l2 hc
        simp [namesSomeLevelBody, this]
      | ok child =>
        rw [hc] at h2
        have := transformBody_names rest (inc.appendNested child) exc al l h2
        simp [namesSomeLevelBody, this]
    | some a =>
      have h2 : (match transformBlock (some nm) blk with
          | Except.error l2 => Except.error l2
          | Except.ok child =>
            transformBody rest (inc.appendNested child) exc
              (updateAssoc al nm a)) = Except.error l := h
      cases hc : transformBlock (some nm) blk with
      | error l2 =>
        rw [hc] at h2
        have hl : l2 = l := (Except.error.injEq _ _).mp h2
        subst hl
        have := transformBlock_names (some nm) blk l2 hc
        simp [namesSomeLevelBody, this]
      | ok child =>
        rw [hc] at h2
        have := transformBody_names rest (inc.appendNested child) exc
          (updateAssoc al nm a) l h2
        simp [namesSomeLevelBody, this]
end

/-- C3: for every grammatically valid query string, parsing raises a
QueryFormatError (distinct from SyntaxError) if and only if some nesting
level has intersecting alias targets and alias sources, and the error names
the offending fields of such a level; with no such intersection anywhere no
QueryFormatError is raised. -/
theorem c3_format_error_characterization :
    ∀ s b, rawParse s = some b →
      (((∃ l, parse s = Except.error (.formatError l)) ↔ hasFaultyB b = true) ∧
        ∀ l, parse s = Except.error (.formatError l) →
          namesSomeLevel b l = true) := by
  intro s b hb
  have hp : parse s = (match transformBlock none b with
      | Except.error l => Except.error (ParseErr.formatError l)
      | Except.ok q => Except.ok q) := by
    unfold parse
    rw [hb]
  cases ht : transformBlock none b with
  | error l0 =>
    rw [ht] at hp
    constructor
    · constructor
      · intro _
        rw [← transformBlock_isErr none b, ht]
        rfl
      · intro _
        exact ⟨l0, hp⟩
    · intro l hl
      rw [hp] at hl
      have h1 := (Except.error.injEq _ _).mp hl
      have h2 : l0 = l := (ParseErr.formatError.injEq _ _).mp h1
      subst h2
      exact transformBlock_names none b l0 ht
  | ok q =>
    rw [ht] at hp
    have hfb : hasFaultyB b = false := by
      rw [← transformBlock_isErr none b, ht]
      rfl
    refine ⟨⟨fun hex => ?_, fun hcontra => ?_⟩, fun l hl => ?_⟩
    · obtain ⟨l, hl⟩ := hex
      rw [hp] at hl
      exact absurd hl (by simp)
    · rw [hfb] at hcontra
      exact absurd hcontra (by simp)
    · rw [hp] at hl
      exact absurd hl (by simp)

/-- Witness for C3: the cross-aliased query does report a format error, and
its raw block indeed has a faulty level. -/
theorem c3_format_error_characterization_witness :
    hasFaultyB (RawBlock.mk []
      (.cons (.includedF (some "x") "name")
        (.cons (.includedF (some "name") "x") .nil))) = true :=
  (c3_format_error_characterization "\x7bx: name, name: x\x7d"
    (RawBlock.mk []
      (.cons (.includedF (some "x") "name")
        (.cons (.includedF (some "name") "x") .nil))) rfl).1.mp
    ⟨["name", "x"], rfl⟩

/-- C9: block bodies and argument lists may separate their items by
whitespace alone, because the csl separator admits the empty string; the
whitespace-separated forms parse to the same trees as the comma-separated
forms. -/
theorem c9_whitespace_separators :
    parse "\x7bname age\x7d" = parse "\x7bname, age\x7d" ∧
    parse "\x7bname age\x7d" =
      Except.ok (Query.mk none
        (Fields.flat "name" (Fields.flat "age" Fields.nil)) [] [] []) ∧
    parse "(a: 1 b: 2)\x7bx\x7d" = parse "(a: 1, b: 2)\x7bx\x7d" ∧
    parse "(a: 1 b: 2)\x7bx\x7d" =
      Except.ok (Query.mk none (Fields.flat "x" Fields.nil) [] []
        [("a", Value.int 1), ("b", Value.int 2)]) :=
  ⟨rfl, rfl, rfl, rfl⟩

/-- C10: a repeated argument name in one argument block parses without
error, and the arguments map binds the name once, to the last occurrence. -/
theorem c10_duplicate_argument_last_wins :
    parse "(a: 1, a: 2)\x7bname\x7d" =
      Except.ok (Query.mk none (Fields.flat "name" Fields.nil) [] []
        [("a", Value.int 2)]) :=
  rfl

/-- Python int() fails on any token containing a dot. -/
theorem pyIntParse_none_of_dot (tok : String) (h : '.' ∈ tok.data) :
    pyIntParse tok = none := by
  unfold pyIntParse
  have hdot : ∀ (l : List Char), '.' ∈ l →
      (if l.isEmpty then (none : Option Int)
        else if l.all Char.isDigit then some (1 * digitsToNat l) else none) =
        none := by
    intro l hl
    cases l with
    | nil => simp at hl
    | cons c cs =>
      simp only [List.isEmpty, if_neg]
      have : (c :: cs).all Char.isDigit = false := by
        rw [List.all_eq_false]
        exact ⟨'.', hl, by decide⟩
      simp [this]
  split
  · rename_i rest heq
    rw [heq] at h
    have hr : '.' ∈ rest := by
      rcases List.mem_cons.mp h with h1 | h1
      · exact absurd h1 (by decide)
      · exact h1
    simp only []
    cases rest with
    | nil => simp at hr
    | cons c cs =>
      have : (c :: cs).all Char.isDigit = false := by
        rw [List.all_eq_false]
        exact ⟨'.', hr, by decide⟩
      simp [List.isEmpty, this]
  · rename_i rest heq
    rw [heq] at h
    have hr : '.' ∈ rest := by
      rcases List.mem_cons.mp h with h1 | h1
      · exact absurd h1 (by decide)
      · exact h1
    simp only []
    cases rest with
    | nil => simp at hr
    | cons c cs =>
      have : (c :: cs).all Char.isDigit = false := by
        rw [List.all_eq_false]
        exact ⟨'.', hr, by decide⟩
      simp [List.isEmpty, this]
  · rename_i hne1 hne2
    simp only []
    cases hcs : tok.data with
    | nil => simp [hcs] at h
    | cons c cs =>
      rw [hcs] at h
      have : (c :: cs).all Char.isDigit = false := by
        rw [List.all_eq_false]
        exact ⟨'.', h, by decide⟩
      simp [List.isEmpty, this]

/-- Python int() succeeds on an optional sign followed by digits. -/
theorem pyIntParse_digits (sg d : List Char)
    (hsg : sg = [] ∨ sg = ['-'] ∨ sg = ['+']) (hne : d ≠ [])
    (hd : d.all Char.isDigit = true) :
    ∃ n, pyIntParse (String.mk (sg ++ d)) = some n := by
  have hemp : d.isEmpty = false := by
    cases d with
    | nil => exact absurd rfl hne
    | cons c cs => rfl
  rcases hsg with h | h | h <;> subst h
  · cases d with
    | nil => exact absurd rfl hne
    | cons c cs =>
      have hcd : c.isDigit = true :=
        List.all_eq_true.mp hd c (List.mem_cons_self c cs)
      unfold pyIntParse
      split
      · rename_i rest heq
        have : c = '-' := (List.cons.injEq _ _ _ _).mp heq |>.1
        rw [this] at hcd
        exact absurd hcd (by decide)
      · rename_i rest heq
        have : c = '+' := (List.cons.injEq _ _ _ _).mp heq |>.1
        rw [this] at hcd
        exact absurd hcd (by decide)
      · simp only [List.nil_append]
        rw [hemp]
        simp [hd]
  · unfold pyIntParse
    split
    · rename_i rest heq
      have h2 : rest = d := (((List.cons.injEq _ _ _ _).mp heq).2).symm
      subst h2
      simp only []
      rw [hemp]
      simp [hd]
    · rename_i rest heq
      exact absurd (((List.cons.injEq _ _ _ _).mp heq).1) (by decide)
    · rename_i h1 h2
      exact absurd rfl (h1 d)
  · unfold pyIntParse
    split
    · rename_i rest heq
      exact absurd (((List.cons.injEq _ _ _ _).mp heq).1) (by decide)
    · rename_i rest heq
      have h2 : rest = d := (((List.cons.injEq _ _ _ _).mp heq).2).symm
      subst h2
      simp only []
      rw [hemp]
      simp [hd]
    · rename_i h1 h2
      exact absurd rfl (h2 d)

theorem all_takeWhile_digits (l : List Char) :
    (l.takeWhile Char.isDigit).all Char.isDigit = true :=
  List.all_eq_true.mpr fun _ hx => List.mem_takeWhile_imp hx

theorem matchSign_shape (s : List Char) :
    (matchSign s).1 = [] ∨ (matchSign s).1 = ['-'] ∨ (matchSign s).1 = ['+'] := by
  unfold matchSign
  cases s with
  | nil => simp
  | cons c r =>
    by_cases hc : (c = '-' || c = '+') = true
    · rcases Bool.or_eq_true_iff.mp hc with h1 | h1
      · simp only [decide_eq_true_eq] at h1
        simp [hc, h1]
      · simp only [decide_eq_true_eq] at h1
        simp [hc, h1]
    · simp only [Bool.not_eq_true] at hc
      simp [hc]

theorem ne_nil_of_isEmpty_false {α : Type} {l : List α}
    (h : l.isEmpty = false) : l ≠ [] := by
  cases l with
  | nil => simp at h
  | cons a r => simp

/-- Every token produced by the numeric regex alternative is a sign
followed by digits, or a sign, digits, a dot and more digits. -/
theorem matchNumberTok_shape (s tk r : List Char)
    (h : matchNumberTok s = some (tk, r)) :
    ∃ sg d1,
      (sg = [] ∨ sg = ['-'] ∨ sg = ['+']) ∧ d1.all Char.isDigit = true ∧
      ((d1 ≠ [] ∧ tk = sg ++ d1) ∨
        (∃ d2, d2 ≠ [] ∧ d2.all Char.isDigit = true ∧
          tk = sg ++ d1 ++ '.' :: d2)) := by
  unfold matchNumberTok at h
  simp only [] at h
  split at h
  · rename_i c r2 heq
    split at h
    · rename_i hc
      split at h
      · rename_i hd2
        split at h
        · exact absurd h (by simp)
        · rename_i hd1
          simp only [Bool.not_eq_true] at hd1
          have := (Option.some.injEq _ _).mp h
          have htk : (matchSign s).1 ++
              ((matchSign s).2.takeWhile Char.isDigit) = tk :=
            ((Prod.mk.injEq _ _ _ _).mp this).1
          exact ⟨(matchSign s).1, (matchSign s).2.takeWhile Char.isDigit,
            matchSign_shape s, all_takeWhile_digits _,
            Or.inl ⟨ne_nil_of_isEmpty_false hd1, htk.symm⟩⟩
      · rename_i hd2
        simp only [Bool.not_eq_true] at hd2
        have := (Option.some.injEq _ _).mp h
        have htk : (matchSign s).1 ++
            ((matchSign s).2.takeWhile Char.isDigit) ++
            '.' :: (r2.takeWhile Char.isDigit) = tk :=
          ((Prod.mk.injEq _ _ _ _).mp this).1
        subst hc
        exact ⟨(matchSign s).1, (matchSign s).2.takeWhile Char.isDigit,
          matchSign_shape s, all_takeWhile_digits _,
          Or.inr ⟨r2.takeWhile Char.isDigit, ne_nil_of_isEmpty_false hd2,
            all_takeWhile_digits _, htk.symm⟩⟩
    · split at h
      · exact absurd h (by simp)
      · rename_i hd1
        simp only [Bool.not_eq_true] at hd1
        have := (Option.some.injEq _ _).mp h
        have htk : (matchSign s).1 ++
            ((matchSign s).2.takeWhile Char.isDigit) = tk :=
          ((Prod.mk.injEq _ _ _ _).mp this).1
        exact ⟨(matchSign s).1, (matchSign s).2.takeWhile Char.isDigit,
          matchSign_shape s, all_takeWhile_digits _,
          Or.inl ⟨ne_nil_of_isEmpty_false hd1, htk.symm⟩⟩
  · split at h
    · exact absurd h (by simp)
    · rename_i hd1
      simp only [Bool.not_eq_true] at hd1
      have := (Option.some.injEq _ _).mp h
      have htk : (matchSign s).1 ++
          ((matchSign s).2.takeWhile Char.isDigit) = tk :=
        ((Prod.mk.injEq _ _ _ _).mp this).1
      exact ⟨(matchSign s).1, (matchSign s).2.takeWhile Char.isDigit,
        matchSign_shape s, all_takeWhile_digits _,
        Or.inl ⟨ne_nil_of_isEmpty_false hd1, htk.symm⟩⟩


/-- C4: scalar argument decoding; bare tokens true/false/null decode to the
fixed values, any other bare token accepted by the numeric regex decodes to
an int when it has no dot and to a float otherwise, quoted tokens decode to
their content with the surrounding quotes stripped, and an unquoted value
outside the regex language is a syntax error. -/
theorem c4_scalar_argument_decoding :
    (∀ s tok rest, matchBare s = some (tok, rest) →
      (tok = "true" → decodeBare tok = Value.bool true) ∧
      (tok = "false" → decodeBare tok = Value.bool false) ∧
      (tok = "null" → decodeBare tok = Value.null) ∧
      (tok ≠ "true" → tok ≠ "false" → tok ≠ "null" →
        (('.' ∉ tok.data) → ∃ n, decodeBare tok = Value.int n) ∧
        (('.' ∈ tok.data) → decodeBare tok = Value.float tok))) ∧
    (∀ q s tok rest, matchQuotedWith q s = some (tok, rest) →
      ∃ cs, tok = String.mk (q :: cs ++ [q]) ∧
        decodeQuoted tok = Value.str (String.mk cs)) ∧
    parse "(age: 20)\x7bx\x7d" =
      Except.ok (Query.mk none (Fields.flat "x" Fields.nil) [] []
        [("age", Value.int 20)]) ∧
    parse "(gpa: 3.5)\x7bx\x7d" =
      Except.ok (Query.mk none (Fields.flat "x" Fields.nil) [] []
        [("gpa", Value.float "3.5")]) ∧
    parse "(active: true)\x7bx\x7d" =
      Except.ok (Query.mk none (Fields.flat "x" Fields.nil) [] []
        [("active", Value.bool true)]) ∧
    parse "(deleted: null)\x7bx\x7d" =
      Except.ok (Query.mk none (Fields.flat "x" Fields.nil) [] []
        [("deleted", Value.null)]) ∧
    parse "(code: \"CS50\")\x7bx\x7d" =
      Except.ok (Query.mk none (Fields.flat "x" Fields.nil) [] []
        [("code", Value.str "CS50")]) ∧
    parse "(a: foo)\x7bx\x7d" = Except.error ParseErr.synError := by
  refine ⟨?_, ?_, rfl, rfl, rfl, rfl, rfl, rfl⟩
  · intro s tok rest h
    refine ⟨fun ht => by rw [ht]; rfl, fun ht => by rw [ht]; rfl,
      fun ht => by rw [ht]; rfl, fun h1 h2 h3 => ?_⟩
    unfold matchBare at h
    split at h
    · exact absurd (((Prod.mk.injEq _ _ _ _).mp
        ((Option.some.injEq _ _).mp h)).1.symm) h1
    · split at h
      · exact absurd (((Prod.mk.injEq _ _ _ _).mp
          ((Option.some.injEq _ _).mp h)).1.symm) h2
      · split at h
        · exact absurd (((Prod.mk.injEq _ _ _ _).mp
            ((Option.some.injEq _ _).mp h)).1.symm) h3
        · cases hm : matchNumberTok s with
          | none => rw [hm] at h; exact absurd h (by simp)
          | some p =>
            obtain ⟨tk, r0⟩ := p
            rw [hm] at h
            have htok : String.mk tk = tok :=
              ((Prod.mk.injEq _ _ _ _).mp ((Option.some.injEq _ _).mp h)).1
            obtain ⟨sg, d1, hsg, hd1, hcase⟩ := matchNumberTok_shape s tk r0 hm
            constructor
            · intro hnd
              rcases hcase with ⟨hne, htk⟩ | ⟨d2, hne2, hd2, htk⟩
              · obtain ⟨n, hn⟩ := pyIntParse_digits sg d1 hsg hne hd1
                refine ⟨n, ?_⟩
                unfold decodeBare
                rw [if_neg h1, if_neg h2, if_neg h3]
                rw [← htok, htk, hn]
              · exfalso
                apply hnd
                rw [← htok]
                show '.' ∈ tk
                rw [htk]
                exact List.mem_append.mpr (Or.inr (List.mem_cons_self _ _))
            · intro hd
              rcases hcase with ⟨hne, htk⟩ | ⟨d2, hne2, hd2, htk⟩
              · exfalso
                rw [← htok] at hd
                have hdm : '.' ∈ tk := hd
                rw [htk] at hdm
                rcases List.mem_append.mp hdm with hm1 | hm1
                · rcases hsg with hh | hh | hh <;> rw [hh] at hm1 <;>
                    simp at hm1
                · have := List.all_eq_true.mp hd1 '.' hm1
                  exact absurd this (by decide)
              · have hnone : pyIntParse tok = none := by
                  apply pyIntParse_none_of_dot
                  rw [← htok]
                  show '.' ∈ tk
                  rw [htk]
                  exact List.mem_append.mpr (Or.inr (List.mem_cons_self _ _))
                unfold decodeBare
                rw [if_neg h1, if_neg h2, if_neg h3, hnone]
  · intro q s tok rest h
    unfold matchQuotedWith at h
    cases s with
    | nil => exact absurd h (by simp)
    | cons c r =>
      have h2 : (if c = q then
          match scanQuoted q r with
          | some (cs, rest2) => some (String.mk (q :: cs ++ [q]), rest2)
          | none => none
        else none) = some (tok, rest) := h
      by_cases hc : c = q
      · rw [if_pos hc] at h2
        cases hsc : scanQuoted q r with
        | none => rw [hsc] at h2; exact absurd h2 (by simp)
        | some p =>
          obtain ⟨cs, rest2⟩ := p
          rw [hsc] at h2
          have htok : String.mk (q :: cs ++ [q]) = tok :=
            ((Prod.mk.injEq _ _ _ _).mp ((Option.some.injEq _ _).mp h2)).1
          refine ⟨cs, htok.symm, ?_⟩
          rw [← htok]
          unfold decodeQuoted
          simp [List.dropLast_concat]
      · rw [if_neg hc] at h2
        exact absurd h2 (by simp)

/-- Witness for C4 on the concrete tokens 20, 3.5 and the quoted CS50. -/
theorem c4_scalar_argument_decoding_witness :
    (∃ n, decodeBare "20" = Value.int n) ∧
    decodeBare "3.5" = Value.float "3.5" ∧
    (∃ cs, ("\"CS50\"" : String) = String.mk ('"' :: cs ++ ['"']) ∧
      decodeQuoted "\"CS50\"" = Value.str (String.mk cs)) := by
  refine ⟨?_, ?_, ?_⟩
  · exact ((c4_scalar_argument_decoding.1 "20)".data "20" [')']
      rfl).2.2.2 (by decide) (by decide) (by decide)).1 (by decide)
  · exact ((c4_scalar_argument_decoding.1 "3.5)".data "3.5" [')']
      rfl).2.2.2 (by decide) (by decide) (by decide)).2 (by decide)
  · exact c4_scalar_argument_decoding.2.1 '"' "\"CS50\"".data "\"CS50\"" [] rfl

theorem skipWs_cons (c : Char) (t : List Char) (h : isSpaceChar c = false) :
    skipWs (c :: t) = c :: t := by
  unfold skipWs
  rw [List.dropWhile_cons_of_neg]
  simp [h]

theorem expectChar_cons_none (c0 c : Char) (t : List Char)
    (hs : isSpaceChar c = false) (hne : c ≠ c0) :
    expectChar c0 (c :: t) = none := by
  unfold expectChar
  rw [skipWs_cons c t hs]
  simp [hne]

theorem expectChar_cons_some (c : Char) (t : List Char)
    (hs : isSpaceChar c = false) : expectChar c (c :: t) = some t := by
  unfold expectChar
  rw [skipWs_cons c t hs]
  simp

theorem takeWhile_word_append (nm : List Char) (c : Char) (t : List Char)
    (hall : nm.all isWordChar = true) (hc : isWordChar c = false) :
    (nm ++ c :: t).takeWhile isWordChar = nm ∧
    (nm ++ c :: t).dropWhile isWordChar = c :: t := by
  induction nm with
  | nil =>
    constructor
    · rw [List.nil_append, List.takeWhile_cons_of_neg]
      simp [hc]
    · rw [List.nil_append, List.dropWhile_cons_of_neg]
      simp [hc]
  | cons a r ih =>
    have hall2 : (isWordChar a && r.all isWordChar) = true := by
      rw [← List.all_cons]
      exact hall
    have ha : isWordChar a = true := Bool.and_elim_left hall2
    have hr : r.all isWordChar = true := Bool.and_elim_right hall2
    obtain ⟨ih1, ih2⟩ := ih hr
    constructor
    · rw [List.cons_append, List.takeWhile_cons_of_pos ha, ih1]
    · rw [List.cons_append, List.dropWhile_cons_of_pos ha, ih2]

theorem parseIdent_cons_none (c : Char) (t : List Char)
    (hs : isSpaceChar c = false) (hw : isWordChar c = false) :
    parseIdent (c :: t) = none := by
  unfold parseIdent
  rw [skipWs_cons c t hs]
  simp only [List.takeWhile_cons_of_neg (by simp [hw] : ¬ isWordChar c = true)]
  rfl

theorem parseIncluded_cons_none (c : Char) (t : List Char)
    (hs : isSpaceChar c = false) (hw : isWordChar c = false) :
    parseIncluded (c :: t) = none := by
  unfold parseIncluded
  rw [parseIdent_cons_none c t hs hw]

theorem parseExcluded_cons_none (c : Char) (t : List Char)
    (hs : isSpaceChar c = false) (hne : c ≠ '-') :
    parseExcluded (c :: t) = none := by
  unfold parseExcluded
  rw [expectChar_cons_none '-' c t hs hne]

theorem parseParentField_none_of_included (fuel : Nat) (s : List Char)
    (h : parseIncluded s = none) : parseParentField fuel s = none := by
  cases fuel with
  | zero => rfl
  | succ g =>
    unfold parseParentField
    rw [h]

theorem parseField_cons_none (fuel : Nat) (c : Char) (t : List Char)
    (hs : isSpaceChar c = false) (hw : isWordChar c = false)
    (hminus : c ≠ '-') (hstar : c ≠ '*') :
    parseField fuel (c :: t) = none := by
  cases fuel with
  | zero => rfl
  | succ g =>
    unfold parseField
    rw [parseParentField_none_of_included g (c :: t)
      (parseIncluded_cons_none c t hs hw)]
    rw [parseIncluded_cons_none c t hs hw]
    rw [parseExcluded_cons_none c t hs hminus]
    rw [expectChar_cons_none '*' c t hs hstar]

theorem parseBodyLoop_cons_nil (fuel : Nat) (c : Char) (t : List Char)
    (hs : isSpaceChar c = false) (hw : isWordChar c = false)
    (hminus : c ≠ '-') (hstar : c ≠ '*') (hcomma : c ≠ ',') :
    parseBodyLoop fuel (c :: t) = (.nil, c :: t) := by
  cases fuel with
  | zero => rfl
  | succ g =>
    unfold parseBodyLoop
    rw [expectChar_cons_none ',' c t hs hcomma]
    rw [parseField_cons_none g c t hs hw hminus hstar]

/-- After an excluded field, a block body stops at an opening brace, leaving
either the whole input or the brace as the remainder. -/
theorem parseBodyStar_exclude (g : Nat) (nmd restd : List Char)
    (hne : nmd ≠ []) (hall : nmd.all isWordChar = true) :
    ∃ body,
      parseBodyStar g ('-' :: (nmd ++ '{' :: restd)) =
        (body, '-' :: (nmd ++ '{' :: restd)) ∨
      parseBodyStar g ('-' :: (nmd ++ '{' :: restd)) = (body, '{' :: restd) := by
  cases g with
  | zero => exact ⟨.nil, Or.inl rfl⟩
  | succ g2 =>
    cases g2 with
    | zero =>
      refine ⟨.nil, Or.inl ?_⟩
      unfold parseBodyStar
      rfl
    | succ g3 =>
      have hex : parseExcluded ('-' :: (nmd ++ '{' :: restd)) =
          some (String.mk nmd, '{' :: restd) := by
        unfold parseExcluded
        rw [expectChar_cons_some '-' _ (by decide)]
        obtain ⟨ht, hd⟩ := takeWhile_word_append nmd '{' restd hall (by decide)
        unfold parseIdentContiguous
        simp only []
        rw [ht, hd]
        have hemp : nmd.isEmpty = false := by
          cases nmd with
          | nil => exact absurd rfl hne
          | cons a r => rfl
        simp [hemp]
      have hfield : parseField (g3 + 1) ('-' :: (nmd ++ '{' :: restd)) =
          some (.excludedF (String.mk nmd), '{' :: restd) := by
        unfold parseField
        rw [parseParentField_none_of_included g3 _
          (parseIncluded_cons_none '-' _ (by decide) (by decide))]
        rw [parseIncluded_cons_none '-' _ (by decide) (by decide)]
        rw [hex]
      refine ⟨.cons (.excludedF (String.mk nmd)) .nil, Or.inr ?_⟩
      unfold parseBodyStar
      rw [hfield]
      simp only []
      rw [parseBodyLoop_cons_nil (g3 + 1) '{' restd (by decide) (by decide)
        (by decide) (by decide) (by decide)]

/-- A block whose body is an excluded field immediately followed by a
nested block never parses, whatever the fuel. -/
theorem parseBlock_exclude_block_none (fuel : Nat) (nmd restd : List Char)
    (hne : nmd ≠ []) (hall : nmd.all isWordChar = true) :
    parseBlock fuel ('{' :: '-' :: (nmd ++ '{' :: restd)) = none := by
  cases fuel with
  | zero => rfl
  | succ g =>
    unfold parseBlock
    have hab : parseArgsBlock g ('{' :: '-' :: (nmd ++ '{' :: restd)) =
        ([], '{' :: '-' :: (nmd ++ '{' :: restd)) := by
      unfold parseArgsBlock
      rw [expectChar_cons_none '(' '{' _ (by decide) (by decide)]
    rw [hab]
    simp only []
    rw [expectChar_cons_some '{' _ (by decide)]
    simp only []
    obtain ⟨body, hd⟩ := parseBodyStar_exclude g nmd restd hne hall
    rcases hd with hd | hd <;> rw [hd] <;> simp only []
    · rw [expectChar_cons_none ',' '-' _ (by decide) (by decide)]
      rw [expectChar_cons_none '}' '-' _ (by decide) (by decide)]
    · rw [expectChar_cons_none ',' '{' _ (by decide) (by decide)]
      rw [expectChar_cons_none '}' '{' _ (by decide) (by decide)]

/-- C5: a query whose body opens with an excluded field immediately
followed by a nested block fails with a SyntaxError-class error, for every
field name and every continuation of the text: an exclusion can only name a
leaf-level field. -/
theorem c5_exclude_with_block_syntax_error :
    ∀ (nm rest : String), nm.data ≠ [] → nm.data.all isWordChar = true →
      parse ("\x7b-" ++ nm ++ "\x7b" ++ rest) =
        Except.error ParseErr.synError := by
  intro nm rest hne hall
  have hdata : ("\x7b-" ++ nm ++ "\x7b" ++ rest).data =
      '{' :: '-' :: (nm.data ++ '{' :: rest.data) := by
    simp [String.data_append]
  have hraw : rawParse ("\x7b-" ++ nm ++ "\x7b" ++ rest) = none := by
    unfold rawParse
    rw [hdata]
    rw [parseBlock_exclude_block_none _ nm.data rest.data hne hall]
  unfold parse
  rw [hraw]

/-- Witness for C5: the concrete query excluding location with a nested
city block is a syntax error. -/
theorem c5_exclude_with_block_syntax_error_witness :
    parse "\x7b-location\x7bcity\x7d\x7d" = Except.error ParseErr.synError :=
  c5_exclude_with_block_syntax_error "location" "city\x7d\x7d"
    (by decide) (by decide)

theorem plookup_pupdate_self : ∀ (m : PMap) (k : Option String) (v : PVal),
    plookup (pupdate m k v) k = some v
  | .nil, k, v => by simp [pupdate, plookup]
  | .cons k0 v0 rest, k, v => by
    unfold pupdate
    by_cases hk : k0 = k
    · rw [if_pos hk]
      simp [plookup, hk]
    · rw [if_neg hk]
      simp [plookup, hk, plookup_pupdate_self rest k v]

theorem plookup_pupdate_ne : ∀ (m : PMap) (k k2 : Option String) (v : PVal),
    k2 ≠ k → plookup (pupdate m k v) k2 = plookup m k2
  | .nil, k, k2, v, h => by
    simp [pupdate, plookup]
    intro he
    exact absurd he.symm h
  | .cons k0 v0 rest, k, k2, v, h => by
    unfold pupdate
    by_cases hk : k0 = k
    · rw [if_pos hk]
      subst hk
      unfold plookup
      rw [if_neg (fun he => h he.symm), if_neg (fun he => h he.symm)]
    · rw [if_neg hk]
      unfold plookup
      by_cases h0 : k0 = k2
      · rw [if_pos h0, if_pos h0]
      · rw [if_neg h0, if_neg h0, plookup_pupdate_ne rest k k2 v h]

theorem addIncluded_preserve : ∀ (inc : Fields) (m : PMap) (k : Option String),
    (¬ k ∈ includedKeys inc) → plookup (addIncluded m inc) k = plookup m k
  | .nil, m, k, _ => rfl
  | .flat s r, m, k, h => by
    have h1 : k ≠ some s := by
      intro he
      exact h (by rw [he]; simp [includedKeys])
    have h2 : ¬ k ∈ includedKeys r := by
      intro he
      exact h (by simp [includedKeys, he])
    unfold addIncluded
    rw [addIncluded_preserve r _ k h2, plookup_pupdate_ne _ _ _ _ h1]
  | .nested q r, m, k, h => by
    have h1 : k ≠ q.field_name := by
      intro he
      exact h (by rw [he]; simp [includedKeys])
    have h2 : ¬ k ∈ includedKeys r := by
      intro he
      exact h (by simp [includedKeys, he])
    unfold addIncluded
    rw [addIncluded_preserve r _ k h2, plookup_pupdate_ne _ _ _ _ h1]

theorem addExcluded_preserve (exc : List String) :
    ∀ (m : PMap) (k : Option String), (∀ nm ∈ exc, k ≠ some nm) →
    plookup (addExcluded m exc) k = plookup m k := by
  induction exc with
  | nil => intro m k _; rfl
  | cons e rest ih =>
    intro m k h
    have he : k ≠ some e := h e (List.mem_cons_self e rest)
    have hr : ∀ nm ∈ rest, k ≠ some nm := fun nm hm =>
      h nm (List.mem_cons_of_mem e hm)
    show plookup (addExcluded (pupdate m (some e) (.b false)) rest) k =
      plookup m k
    rw [ih _ k hr, plookup_pupdate_ne _ _ _ _ he]

theorem addExcluded_mem (exc : List String) :
    ∀ (m : PMap) (nm : String), nm ∈ exc →
    plookup (addExcluded m exc) (some nm) = some (.b false) := by
  induction exc with
  | nil => intro m nm h; simp at h
  | cons e rest ih =>
    intro m nm h
    show plookup (addExcluded (pupdate m (some e) (.b false)) rest) (some nm) =
      some (.b false)
    by_cases hr : nm ∈ rest
    · exact ih _ nm hr
    · have he : nm = e := by
        rcases List.mem_cons.mp h with h1 | h1
        · exact h1
        · exact absurd h1 hr
      subst he
      rw [addExcluded_preserve rest _ (some nm)
        (fun x hx hcontra => hr (by rw [(Option.some.injEq _ _).mp hcontra]; exact hx))]
      exact plookup_pupdate_self m (some nm) (.b false)

theorem addIncluded_flat : ∀ (inc : Fields) (m : PMap) (s : String),
    (includedKeys inc).Nodup → inc.memFlat s = true →
    plookup (addIncluded m inc) (some s) = some (.b true)
  | .nil, m, s, _, hmem => by simp [Fields.memFlat] at hmem
  | .flat x r, m, s, hnd, hmem => by
    have hx : ¬ some x ∈ includedKeys r :=
      (List.nodup_cons.mp hnd).1
    have hndr : (includedKeys r).Nodup := (List.nodup_cons.mp hnd).2
    unfold Fields.memFlat at hmem
    rcases Bool.or_eq_true_iff.mp hmem with h1 | h1
    · have hxs : x = s := by simpa using h1
      subst hxs
      unfold addIncluded
      rw [addIncluded_preserve r _ (some x) hx]
      exact plookup_pupdate_self m (some x) (.b true)
    · exact addIncluded_flat r _ s hndr h1
  | .nested q r, m, s, hnd, hmem => by
    have hndr : (includedKeys r).Nodup := (List.nodup_cons.mp hnd).2
    unfold Fields.memFlat at hmem
    exact addIncluded_flat r _ s hndr hmem

theorem addIncluded_nested : ∀ (inc : Fields) (m : PMap) (c : Query),
    (includedKeys inc).Nodup → inc.memNestedIn c →
    plookup (addIncluded m inc) c.field_name = some (.m (qToDict c))
  | .nil, m, c, _, hmem => absurd hmem (by simp [Fields.memNestedIn])
  | .flat x r, m, c, hnd, hmem => by
    have hndr : (includedKeys r).Nodup := (List.nodup_cons.mp hnd).2
    unfold Fields.memNestedIn at hmem
    exact addIncluded_nested r _ c hndr hmem
  | .nested q r, m, c, hnd, hmem => by
    have hq : ¬ q.field_name ∈ includedKeys r := (List.nodup_cons.mp hnd).1
    have hndr : (includedKeys r).Nodup := (List.nodup_cons.mp hnd).2
    unfold Fields.memNestedIn at hmem
    rcases hmem with h1 | h1
    · subst h1
      unfold addIncluded
      rw [addIncluded_preserve r _ q.field_name hq]
      exact plookup_pupdate_self m q.field_name (.m (qToDict q))
    · exact addIncluded_nested r _ c hndr h1

/-- C8 counterexample: the tree parsed from the query including name and
excluding name has the flat entry "name" in its included_fields, yet the
dict conversion maps "name" to False, because the excluded pass overwrites
the included pass; so the claimed conversion property fails on a reachable
Query tree. -/
theorem c8_counterexample :
    parse "\x7bname,-name\x7d" =
      Except.ok (Query.mk none
        (Fields.flat "name" (Fields.flat "*" Fields.nil)) ["name"] [] []) ∧
    ¬ (∀ q : Query, dictClaim q) := by
  refine ⟨rfl, fun h => ?_⟩
  have h1 := (h (Query.mk none
    (Fields.flat "name" (Fields.flat "*" Fields.nil)) ["name"] [] [])).1
    "name" rfl
  have h2 : plookup (qToDict (Query.mk none
      (Fields.flat "name" (Fields.flat "*" Fields.nil)) ["name"] [] []))
      (some "name") = some (.b false) := rfl
  rw [h2] at h1
  exact absurd ((PVal.b.injEq _ _).mp ((Option.some.injEq _ _).mp h1))
    (by decide)

/-- C8 amended: for every Query tree whose included_fields entries have
pairwise distinct keys, the dict conversion maps every excluded name to
False, every flat included entry whose name is not also excluded to True,
and every nested entry whose field_name is not an excluded key to the
recursively converted child; an excluded name overwrites any included entry
of the same name, because the excluded pass runs second. -/
theorem c8_amended_dict_conversion :
    ∀ q : Query, (includedKeys q.included_fields).Nodup →
      (∀ nm, nm ∈ q.excluded_fields →
        plookup (qToDict q) (some nm) = some (.b false)) ∧
      (∀ s, q.included_fields.memFlat s = true → ¬ s ∈ q.excluded_fields →
        plookup (qToDict q) (some s) = some (.b true)) ∧
      (∀ c, q.included_fields.memNestedIn c →
        (∀ nm ∈ q.excluded_fields, c.field_name ≠ some nm) →
        plookup (qToDict q) c.field_name = some (.m (qToDict c))) := by
  intro q hnd
  cases q with
  | mk fn inc exc al ar =>
    have hq : qToDict (Query.mk fn inc exc al ar) =
        addExcluded (addIncluded .nil inc) exc := rfl
    refine ⟨fun nm hm => ?_, fun s hmem hnx => ?_, fun c hmem hnx => ?_⟩
    · rw [hq]
      exact addExcluded_mem exc _ nm hm
    · rw [hq]
      rw [addExcluded_preserve exc _ (some s)
        (fun x hx hcontra => hnx (by rw [(Option.some.injEq _ _).mp hcontra]; exact hx))]
      exact addIncluded_flat inc _ s hnd hmem
    · rw [hq]
      rw [addExcluded_preserve exc _ c.field_name hnx]
      exact addIncluded_nested inc _ c hnd hmem

/-- Witness for the amended C8 on the tree of a query including a, nesting
c and excluding b. -/
theorem c8_amended_dict_conversion_witness :
    plookup (qToDict (Query.mk none
      (Fields.flat "a" (Fields.nested
        (Query.mk (some "c") Fields.nil [] [] [])
        (Fields.flat "*" Fields.nil))) ["b"] [] [])) (some "b") =
      some (.b false) ∧
    plookup (qToDict (Query.mk none
      (Fields.flat "a" (Fields.nested
        (Query.mk (some "c") Fields.nil [] [] [])
        (Fields.flat "*" Fields.nil))) ["b"] [] [])) (some "a") =
      some (.b true) := by
  have h := c8_amended_dict_conversion (Query.mk none
    (Fields.flat "a" (Fields.nested
      (Query.mk (some "c") Fields.nil [] [] [])
      (Fields.flat "*" Fields.nil))) ["b"] [] []) (by decide)
  exact ⟨h.1 "b" (by decide), h.2.1 "a" rfl (by decide)⟩
